import Mathlib

/-!
Shallow embedding of `query/outputnode.go` (dgraph JSON output encoding):
the fast JSON output-node tree, its builder operations, the `@normalize`
flattening (`normalize` / `merge`), the encoder (`encode`), the traversal
(`preTraverse`) and the top-level assembly (`processNodeUids` / `toFastJSON`).

Conventions used throughout:
* Go byte slices holding wire text are modelled as `String`.
* Go `uint64` uids are modelled as `Nat` (only equality, membership, and
  hex rendering of uids occur in this file, so no wrap-around arithmetic
  is involved).
* Go's in-place mutation is modelled by explicit state passing: functions
  that mutate a `*fastJsonNode` or a `*SubGraph` return the updated value.
* The global configuration value `x.Config.NormalizeNodeLimit` is passed
  as an explicit `limit : Nat` parameter (the code reads a process-wide
  config; the value is otherwise opaque to this file).
* Go errors are modelled as `String` (the text of the error); the code
  itself distinguishes errors by their text (the `"_INV_"` marker).
-/

namespace OutputNode

/-- Model of the `fastJsonNode` struct: attribute name, relative order
(assigned at encode time), structural-child flag, pre-encoded scalar bytes,
ordered children, list-rendering flag. -/
inductive FJ where
  | mk (attr : String) (order : Nat) (isChild : Bool) (scalarVal : String)
       (attrs : List FJ) (list : Bool)

/-- Projection of the `attr` field. -/
def FJ.attr : FJ → String
  | .mk a _ _ _ _ _ => a

/-- Projection of the `order` field. -/
def FJ.order : FJ → Nat
  | .mk _ o _ _ _ _ => o

/-- Projection of the `isChild` field. -/
def FJ.isChild : FJ → Bool
  | .mk _ _ c _ _ _ => c

/-- Projection of the `scalarVal` field. -/
def FJ.scalarVal : FJ → String
  | .mk _ _ _ sv _ _ => sv

/-- Projection of the `attrs` (children) field. -/
def FJ.attrs : FJ → List FJ
  | .mk _ _ _ _ as _ => as

/-- Projection of the `list` field. -/
def FJ.listFlag : FJ → Bool
  | .mk _ _ _ _ _ l => l

/-- Replace the children of a node (models in-place mutation of `fj.attrs`). -/
def FJ.withAttrs : FJ → List FJ → FJ
  | .mk a o c sv _ l, as => .mk a o c sv as l

/-- Replace the order field of a node (models `a.order = i`). -/
def FJ.withOrder : FJ → Nat → FJ
  | .mk a _ c sv as l, o => .mk a o c sv as l

/-- Replace the attr field of a node (models `val.attr = attr`). -/
def FJ.withAttr : FJ → String → FJ
  | .mk _ o c sv as l, a => .mk a o c sv as l

/-- Replace the isChild field of a node (models `val.isChild = b`). -/
def FJ.withIsChild : FJ → Bool → FJ
  | .mk a o _ sv as l, c => .mk a o c sv as l

@[simp] theorem FJ.attr_mk (a o c sv as l) : (FJ.mk a o c sv as l).attr = a := rfl
@[simp] theorem FJ.order_mk (a o c sv as l) : (FJ.mk a o c sv as l).order = o := rfl
@[simp] theorem FJ.isChild_mk (a o c sv as l) : (FJ.mk a o c sv as l).isChild = c := rfl
@[simp] theorem FJ.scalarVal_mk (a o c sv as l) : (FJ.mk a o c sv as l).scalarVal = sv := rfl
@[simp] theorem FJ.attrs_mk (a o c sv as l) : (FJ.mk a o c sv as l).attrs = as := rfl
@[simp] theorem FJ.listFlag_mk (a o c sv as l) : (FJ.mk a o c sv as l).listFlag = l := rfl
@[simp] theorem FJ.withAttrs_mk (a o c sv as l bs) :
    (FJ.mk a o c sv as l).withAttrs bs = FJ.mk a o c sv bs l := rfl
@[simp] theorem FJ.withOrder_mk (a o c sv as l n) :
    (FJ.mk a o c sv as l).withOrder n = FJ.mk a n c sv as l := rfl

/-- Model of `makeScalarNode`. -/
def makeScalarNode (attr : String) (isChild : Bool) (val : String) (list : Bool) : FJ :=
  .mk attr 0 isChild val [] list

/-- Model of `(*fastJsonNode).New`: a fresh node with the given attr. -/
def FJ.New (attr : String) : FJ :=
  .mk attr 0 false "" [] false

/-- Model of `(*fastJsonNode).IsEmpty`: true iff there are no children. -/
def FJ.IsEmpty (fj : FJ) : Bool :=
  fj.attrs.length = 0

end OutputNode

namespace OutputNode

/-!  Typed scalar values.  `types.Val` carries a type id (`Tid`) and a payload;
`valToBytes` dispatches on the type id.  The model fuses the two into one
inductive, one constructor per `Tid` case of the `valToBytes` switch.
The rendering of types that the Go code delegates to external encoders
(`json.Marshal`, `%f` float formatting, `geojson.Marshal`,
`time.MarshalJSON`) is modelled by carrying the externally produced text
in the constructor (the Value Codec is an external collaborator of this
file; no claim depends on those byte-level encodings). -/

/-- Model of `types.Val`. -/
inductive Val where
  /-- StringID / DefaultID payload (rendered via `json.Marshal`). -/
  | vstr (s : String)
  /-- BinaryID payload (rendered via `%q`). -/
  | vbinary (s : String)
  /-- IntID payload (rendered via `%d`). -/
  | vint (i : Int)
  /-- FloatID payload; carries the external `%f` rendering. -/
  | vfloat (rendered : String)
  /-- BoolID payload. -/
  | vbool (b : Bool)
  /-- DateTimeID payload: whether the time is the zero time, and the
  external `MarshalJSON` rendering used when it is not. -/
  | vdatetime (isZero : Bool) (rendered : String)
  /-- GeoID payload; carries the external `geojson.Marshal` rendering. -/
  | vgeo (rendered : String)
  /-- UidID payload (rendered via `%#x`). -/
  | vuid (u : Nat)
  /-- PasswordID payload (rendered via `%q`). -/
  | vpassword (s : String)
  /-- Any `Tid` not listed in the `valToBytes` switch (the `default` case). -/
  | vother (tag : Nat)
deriving DecidableEq, Repr

/-- Lowercase hex digits of a natural number, as produced by Go `%x`. -/
def hexStr (n : Nat) : String :=
  String.mk (Nat.toDigits 16 n)

/-- Model of Go `fmt.Sprintf("\"%#x\"", uid)`: quoted 0x-prefixed hex. -/
def uidHexStr (u : Nat) : String :=
  "\"0x" ++ hexStr u ++ "\""

/-- Model of quoting a string (`json.Marshal` on a string / `%q`).  Escape
handling inside the quotes is the external encoder's business and is elided
(no claim depends on it). -/
def quoteStr (s : String) : String :=
  "\"" ++ s ++ "\""

/-- Model of `valToBytes`: the wire text of a value, or an
unsupported-type error for a `Tid` outside the switch. -/
def valToBytes : Val → Except String String
  | .vstr s => .ok (quoteStr s)
  | .vbinary s => .ok (quoteStr s)
  | .vint i => .ok (toString i)
  | .vfloat r => .ok r
  | .vbool true => .ok "true"
  | .vbool false => .ok "false"
  | .vdatetime true _ => .ok (quoteStr "")
  | .vdatetime false r => .ok r
  | .vgeo r => .ok r
  | .vuid u => .ok (uidHexStr u)
  | .vpassword s => .ok (quoteStr s)
  | .vother _ => .error "Unsupported types.Val.Tid"

/-- Model of `(*fastJsonNode).AddListValue`: append a scalar leaf unless the
value codec reports an unsupported type, in which case the node is unchanged. -/
def FJ.AddListValue (fj : FJ) (attr : String) (v : Val) (list : Bool) : FJ :=
  match valToBytes v with
  | .ok bs => fj.withAttrs (fj.attrs ++ [makeScalarNode attr false bs list])
  | .error _ => fj

/-- Model of `(*fastJsonNode).AddValue`. -/
def FJ.AddValue (fj : FJ) (attr : String) (v : Val) : FJ :=
  fj.AddListValue attr v false

/-- Model of `(*fastJsonNode).AddListChild`: attach a child subtree as a new
sibling, setting its attr and isChild flag. -/
def FJ.AddListChild (fj : FJ) (attr : String) (child : FJ) : FJ :=
  fj.withAttrs (fj.attrs ++ [(child.withAttr attr).withIsChild true])

/-- Model of `(*fastJsonNode).AddMapChild`: if a child with the given attr
exists, append the new subtree's children into it (shallow merge);
otherwise attach the subtree as a fresh child with isChild cleared.
The `isRoot` parameter is unused by the Go code and kept for fidelity. -/
def FJ.AddMapChild (fj : FJ) (attr : String) (val : FJ) (_isRoot : Bool) : FJ :=
  match fj.attrs.findIdx? (fun c => c.attr = attr) with
  | some i =>
      fj.withAttrs (fj.attrs.modify (fun c => c.withAttrs (c.attrs ++ val.attrs)) i)
  | none =>
      fj.withAttrs (fj.attrs ++ [(val.withAttr attr).withIsChild false])

/-- Model of `(*fastJsonNode).SetUID`: for the reserved name `"uid"` the call
is a no-op when a field of that name is already attached; otherwise a quoted
hex scalar field is appended. -/
def FJ.SetUID (fj : FJ) (uid : Nat) (attr : String) : FJ :=
  if attr = "uid" ∧ fj.attrs.any (fun a => a.attr = attr) then fj
  else fj.withAttrs (fj.attrs ++ [makeScalarNode attr false (uidHexStr uid) false])

end OutputNode

namespace OutputNode

/-!  The encoder (`encode`, lines 204-272).

The Go function first reassigns each direct child's `order` field to its
positional index, then scans the children with a one-element lookahead
(`cur` / `next`), a run counter `cnt` and an `inArray` flag, emitting keys,
brackets and recursively encoded children.  A node's encoding reads only its
children's `attr`, `isChild`, `list` fields and their recursively encoded
bytes, never any `order` field, so the model separates the loop (over those
four projections, `EncItem`) from the recursion; the emitted bytes are the
in-order concatenation the Go loop produces, and the returned tree carries
the order reassignment (a node's own encoding does not read or write its own
`order`, so assigning the refreshed orders to the recursively encoded
children is the same mutation). -/

/-- Model of the `order` reassignment loop: `for i, a := range fj.attrs { a.order = i }`. -/
def assignOrders : Nat → List FJ → List FJ
  | _, [] => []
  | i, a :: rest => a.withOrder i :: assignOrders (i + 1) rest

/-- Model of `(*fastJsonNode).writeKey`. -/
def writeKey (attr : String) : String :=
  "\"" ++ attr ++ "\":"

/-- The projections of one child that the encode loop reads, together with
the child's recursively encoded bytes. -/
structure EncItem where
  attr : String
  isChild : Bool
  list : Bool
  str : String

/-- Model of the `cur`/`next` scan inside `encode` (lines 210-267):
`cnt` counts the length of the current run of equal attrs, `inArray` records
whether an array bracket is currently open. -/
def encLoop : EncItem → List EncItem → Nat → Bool → String
  | cur, next :: rest, cnt, inArray =>
    if cur.attr = next.attr then
      (if cnt = 1 then writeKey cur.attr ++ "[" else "") ++ cur.str ++ "," ++
        encLoop next rest (cnt + 1) (if cnt = 1 then true else inArray)
    else
      (if cnt = 1 then writeKey cur.attr ++ (if cur.isChild || cur.list then "[" else "")
       else "") ++
        cur.str ++
        (if cnt ≠ 1 ∨ (cur.isChild || cur.list) = true then "]" else "") ++ "," ++
        encLoop next rest 1
          (if cnt ≠ 1 ∨ (cur.isChild || cur.list) = true then false else inArray)
  | cur, [], cnt, inArray =>
    (if cnt = 1 then writeKey cur.attr else "") ++
      (if (cur.isChild || cur.list) && !inArray then "[" else "") ++
      cur.str ++
      (if cnt ≠ 1 ∨ (cur.isChild || cur.list) = true then "]" else "")

/-- Model of `(*fastJsonNode).encode`: returns the emitted bytes and the tree
after the encode-time `order` reassignment.  A node with children emits a
braced object via `encLoop`; a node without children emits its scalar bytes. -/
def encodeNode : FJ → String × FJ
  | .mk a o c sv attrs l =>
    ((match attrs.attach.map
          (fun x => EncItem.mk x.1.attr x.1.isChild x.1.listFlag (encodeNode x.1).1) with
      | [] => sv
      | first :: rest => "\x7b" ++ encLoop first rest 1 false ++ "\x7d"),
     .mk a o c sv (assignOrders 0 (attrs.attach.map (fun x => (encodeNode x.1).2))) l)
termination_by t => sizeOf t
decreasing_by
  all_goals
    simp only [FJ.mk.sizeOf_spec]
    have h := List.sizeOf_lt_of_mem x.2
    omega

/-- Unfolding of `encodeNode` with the termination bookkeeping (`attach`)
removed. -/
theorem encodeNode_eq (a : String) (o : Nat) (c : Bool) (sv : String)
    (attrs : List FJ) (l : Bool) :
    encodeNode (.mk a o c sv attrs l) =
      ((match attrs.map
            (fun x => EncItem.mk x.attr x.isChild x.listFlag (encodeNode x).1) with
        | [] => sv
        | first :: rest => "\x7b" ++ encLoop first rest 1 false ++ "\x7d"),
       .mk a o c sv (assignOrders 0 (attrs.map (fun x => (encodeNode x).2))) l) := by
  rw [encodeNode]
  rw [List.attach_map_val attrs
    (fun x => EncItem.mk x.attr x.isChild x.listFlag (encodeNode x).1)]
  rw [List.attach_map_val attrs (fun x => (encodeNode x).2)]

/-- Model of the serialization step of `toFastJSON` (lines 519-524): an empty
root serializes to the empty-object text, otherwise the root is encoded. -/
def toFastJSONBytes (root : FJ) : String :=
  if root.attrs.length = 0 then "\x7b\x7d" else (encodeNode root).1

end OutputNode

namespace OutputNode

/-!  The normalizer: `merge` (lines 274-296) and `normalize` (lines 298-368).
The configured ceiling `x.Config.NormalizeNodeLimit` is the explicit
`limit` parameter. -/

/-- The user-facing limit error of `merge`. -/
def mergeErrMsg : String := "Couldn\x27t evaluate @normalize directive - too many results"

/-- Inner loop of `merge`: combine one parent row with every child row,
threading the running cumulative element count `cnt` and failing as soon as
it exceeds the limit. -/
def mergeInner (limit : Nat) (pa : List FJ) : List (List FJ) → Nat →
    Except String (Nat × List (List FJ))
  | [], cnt => .ok (cnt, [])
  | ca :: rest, cnt =>
    let cnt1 := cnt + pa.length + ca.length
    if limit < cnt1 then .error mergeErrMsg
    else
      match mergeInner limit pa rest cnt1 with
      | .error e => .error e
      | .ok (cf, rows) => .ok (cf, (pa ++ ca) :: rows)

/-- Outer loop of `merge`: iterate over the parent rows. -/
def mergeOuter (limit : Nat) (child : List (List FJ)) : List (List FJ) → Nat →
    Except String (Nat × List (List FJ))
  | [], cnt => .ok (cnt, [])
  | pa :: rest, cnt =>
    match mergeInner limit pa child cnt with
    | .error e => .error e
    | .ok (cnt1, rows1) =>
      match mergeOuter limit child rest cnt1 with
      | .error e => .error e
      | .ok (cf, rows2) => .ok (cf, rows1 ++ rows2)

/-- Model of `merge`: an empty parent set short-circuits to the child set
(no limit check at all); otherwise the pairwise cross-product is built under
the running cumulative element count. -/
def merge (parent child : List (List FJ)) (limit : Nat) : Except String (List (List FJ)) :=
  if parent.length = 0 then .ok child
  else
    match mergeOuter limit child parent 0 with
    | .error e => .error e
    | .ok (_, rows) => .ok rows

/-- Stable comparison used by `nodeSlice.Less`: by attr, ties by order. -/
def nodeLess (a b : FJ) : Bool :=
  if a.attr = b.attr then decide (a.order < b.order) else decide (a.attr < b.attr)

/-- Insertion into a sorted list, keeping earlier elements first on ties. -/
def insertNode (a : FJ) : List FJ → List FJ
  | [] => [a]
  | b :: rest => if nodeLess b a then b :: insertNode a rest else a :: b :: rest

/-- Model of `sort.Sort(nodeSlice(slice))`.  At normalize time every node's
`order` field is 0 (orders are assigned only at encode time), and on the
row sizes involved Go's `sort.Sort` performs insertion sort, which keeps
equal elements in slice order; modelled as a stable insertion sort. -/
def sortNodes (l : List FJ) : List FJ := l.foldr insertNode []

/-- Index of the first node named "uid" (the `first` variable of the scan at
lines 348-357, with `-1` modelled as `none`). -/
def firstUidIdx : List FJ → Option Nat
  | [] => none
  | a :: rest => if a.attr = "uid" then some 0 else (firstUidIdx rest).map (· + 1)

/-- Index of the last node named "uid" (the `last` variable of the same scan). -/
def lastUidIdx : List FJ → Option Nat
  | [] => none
  | a :: rest =>
    match lastUidIdx rest with
    | some i => some (i + 1)
    | none => if a.attr = "uid" then some 0 else none

/-- Model of the duplicate-uid drop (lines 348-364): when the first and last
"uid" indices differ, keep `slice[:first] ++ slice[last:]`. -/
def removeExtraUids (slice : List FJ) : List FJ :=
  match firstUidIdx slice, lastUidIdx slice with
  | some f, some lst =>
    if f ≠ lst then (if f = 0 then slice.drop lst else slice.take f ++ slice.drop lst)
    else slice
  | _, _ => slice

/-- The per-row post-processing of `normalize` (lines 345-365): sort by
attr (ties by order), then collapse duplicate "uid" fields. -/
def postRow (row : List FJ) : List FJ :=
  removeExtraUids (sortNodes row)

/-- Message used when the model's recursion fuel runs out.  The Go recursion
terminates on every finite tree, and any fuel at least the tree height gives
the Go result; theorems below only constrain non-fuel outcomes. -/
def fuelErrMsg : String := "model: recursion fuel exhausted"

/-- One left-to-right scan implementing the grouping loop of `normalize`
(lines 323-344).  The Go outer loop skips non-child nodes, and on a child
node runs an inner loop consuming every following node (child or not) with
the same attr, normalizing each and concatenating the rows; when the run
ends the accumulated child rows are cross-merged into the parent rows.
The scan carries the open run as `some (attr, rows)`. -/
def normScan (rec : FJ → Except String (List (List FJ))) (limit : Nat) :
    List FJ → List (List FJ) → Option (String × List (List FJ)) →
    Except String (List (List FJ))
  | [], ps, none => .ok ps
  | [], ps, some (_, cs) => merge ps cs limit
  | a :: rest, ps, none =>
    if a.isChild then
      match rec a with
      | .error e => .error e
      | .ok rows => normScan rec limit rest ps (some (a.attr, rows))
    else normScan rec limit rest ps none
  | a :: rest, ps, some (g, cs) =>
    if a.attr = g then
      match rec a with
      | .error e => .error e
      | .ok rows => normScan rec limit rest ps (some (g, cs ++ rows))
    else
      match merge ps cs limit with
      | .error e => .error e
      | .ok ps1 =>
        if a.isChild then
          match rec a with
          | .error e => .error e
          | .ok rows => normScan rec limit rest ps1 (some (a.attr, rows))
        else normScan rec limit rest ps1 none

/-- Model of `(*fastJsonNode).normalize`.  A node with no structural children
returns the single row of its own attrs unchanged (recursion base case,
lines 306-310); otherwise the non-child attrs form the base row, consecutive
same-named child groups are normalized bottom-up and cross-merged, and each
resulting row is sorted and has its duplicate "uid" fields collapsed. -/
def normalizeFJ : Nat → FJ → Nat → Except String (List (List FJ))
  | 0, _, _ => .error fuelErrMsg
  | fuel + 1, fj, limit =>
    if (fj.attrs.filter (fun a => a.isChild)).length = 0 then .ok [fj.attrs]
    else
      match normScan (fun a => normalizeFJ fuel a limit) limit fj.attrs
          [fj.attrs.filter (fun a => ¬a.isChild)] none with
      | .error e => .error e
      | .ok ps => .ok (ps.map postRow)

end OutputNode

namespace OutputNode

/-!  The query-side input model.  `SubGraph` carries the per-predicate result
matrices that `preTraverse` consumes.  Collaborators that live outside
`query/outputnode.go` are modelled at their interface boundary:

* `convertWithBestEffort` (value conversion) and `task.ToBool` are external;
  a `TV` (task value) carries the outcome each would produce for it.
* `facets.ValFor` (facet decode) is external; a `Facet` carries its outcome
  alongside the `api.Facet` key/alias fields.
* `algo.IndexOf` is external (binary search over a sorted uid list); it is
  modelled as the index of the uid, `none` standing for Go's -1.
-/

/-- Model of a `pb.TaskValue` at this file's interface boundary: the result
`convertWithBestEffort` would return for it, and the boolean `task.ToBool`
would return for it.  Modelled from the spec: both functions live outside
`src/` ("the value-type system's conversion semantics [are] consumed here
only through a convert-typed-value contract"). -/
structure TV where
  conv : Except String Val
  asBool : Bool
deriving Repr

/-- Model of an `api.Facet` plus the outcome of the external decode
`facets.ValFor`.  Modelled from the spec: facet decoding is "consumed
through a decode-facet-to-typed-value contract". -/
structure Facet where
  falias : String
  key : String
  fval : Except String Val
deriving Repr

/-- One key or aggregate entry of a group-by group.  Modelled from the spec:
the `groupResults` types live outside `src/`; each group lists its key
fields and aggregate fields as attr/value pairs. -/
structure GroupPair where
  attr : String
  key : Val
deriving Repr

/-- One group of a group-by result (spec-modelled, see `GroupPair`). -/
structure GroupResult where
  keys : List GroupPair
  aggregates : List GroupPair
deriving Repr

/-- A pre-computed group-by result (spec-modelled, see `GroupPair`). -/
structure GroupResults where
  group : List GroupResult
deriving Repr

instance : Inhabited GroupResults := ⟨⟨[]⟩⟩

/-- Model of `params` (the per-directive parameters of a subgraph level);
only the fields `outputnode.go` reads are carried.  `Facet` is the presence
of a facet request (`Params.Facet != nil`); `isInternal` is modelled from
the spec: `IsInternal` is declared outside `src/`, and per the spec marks
"internal predicates (those representing bound variables rather than real
edges)".  `uidToVal` is the bound-variable value map; entries whose Go
`Value` is nil are represented by absence from the map (`addInternalNode`
skips them just as it skips missing entries). -/
structure Params where
  Alias : String := ""
  GetUid : Bool := false
  IsEmpty : Bool := false
  Normalize : Bool := false
  isGroupBy : Bool := false
  uidCount : Bool := false
  uidCountAlias : String := ""
  IgnoreReflex : Bool := false
  parentIds : List Nat := []
  ignoreResult : Bool := false
  Expand : String := ""
  Langs : List String := []
  expandAll : Bool := false
  Facet : Bool := false
  shortest : Bool := false
  Var : String := ""
  NeedsVar : List String := []
  uidToVal : List (Nat × Val) := []
  isInternal : Bool := false
deriving Repr

/-- Model of `SubGraph`: the fields `outputnode.go` reads.  `uidMatrix` is an
`Option` to keep Go's nil-slice / non-nil distinction that `processNodeUids`
tests; `SrcFunc` carries the function name (`SrcFunc.Name`); `listFlag` is
the Go field `List`; `pathMeta` carries the rendered `%f` text of
`pathMeta.weight` when present. -/
inductive SubGraph where
  | mk (Attr : String) (Params : Params) (SrcUIDs : List Nat) (DestUIDs : List Nat)
       (uidMatrix : Option (List (List Nat))) (valueMatrix : List (List TV))
       (facetsMatrix : List (List (List Facet))) (counts : List Nat)
       (LangTags : List (List String)) (GroupbyRes : List GroupResults)
       (SrcFunc : Option String) (listFlag : Bool) (pathMeta : Option String)
       (Children : List SubGraph)

/-- Projection of the `Attr` field. -/
def SubGraph.Attr : SubGraph → String
  | .mk a _ _ _ _ _ _ _ _ _ _ _ _ _ => a

/-- Projection of the `Params` field. -/
def SubGraph.Params : SubGraph → OutputNode.Params
  | .mk _ p _ _ _ _ _ _ _ _ _ _ _ _ => p

/-- Projection of the `SrcUIDs` field. -/
def SubGraph.SrcUIDs : SubGraph → List Nat
  | .mk _ _ s _ _ _ _ _ _ _ _ _ _ _ => s

/-- Projection of the `DestUIDs` field. -/
def SubGraph.DestUIDs : SubGraph → List Nat
  | .mk _ _ _ d _ _ _ _ _ _ _ _ _ _ => d

/-- Projection of the `uidMatrix` field. -/
def SubGraph.uidMatrix : SubGraph → Option (List (List Nat))
  | .mk _ _ _ _ m _ _ _ _ _ _ _ _ _ => m

/-- Projection of the `valueMatrix` field. -/
def SubGraph.valueMatrix : SubGraph → List (List TV)
  | .mk _ _ _ _ _ v _ _ _ _ _ _ _ _ => v

/-- Projection of the `facetsMatrix` field. -/
def SubGraph.facetsMatrix : SubGraph → List (List (List Facet))
  | .mk _ _ _ _ _ _ f _ _ _ _ _ _ _ => f

/-- Projection of the `counts` field. -/
def SubGraph.counts : SubGraph → List Nat
  | .mk _ _ _ _ _ _ _ c _ _ _ _ _ _ => c

/-- Projection of the `LangTags` field. -/
def SubGraph.LangTags : SubGraph → List (List String)
  | .mk _ _ _ _ _ _ _ _ lt _ _ _ _ _ => lt

/-- Projection of the `GroupbyRes` field. -/
def SubGraph.GroupbyRes : SubGraph → List GroupResults
  | .mk _ _ _ _ _ _ _ _ _ g _ _ _ _ => g

/-- Projection of the `SrcFunc` field (the function name when present). -/
def SubGraph.SrcFunc : SubGraph → Option String
  | .mk _ _ _ _ _ _ _ _ _ _ f _ _ _ => f

/-- Projection of the Go `List` field. -/
def SubGraph.listFlag : SubGraph → Bool
  | .mk _ _ _ _ _ _ _ _ _ _ _ l _ _ => l

/-- Projection of the `pathMeta` field. -/
def SubGraph.pathMeta : SubGraph → Option String
  | .mk _ _ _ _ _ _ _ _ _ _ _ _ pm _ => pm

/-- Projection of the `Children` field. -/
def SubGraph.Children : SubGraph → List SubGraph
  | .mk _ _ _ _ _ _ _ _ _ _ _ _ _ cs => cs

/-- Replace the `Params` field (models in-place mutation through the pointer). -/
def SubGraph.setParams : SubGraph → OutputNode.Params → SubGraph
  | .mk a _ s d m v f c lt g sf l pm cs, p => .mk a p s d m v f c lt g sf l pm cs

/-- Replace the `Children` field (models in-place mutation of the children). -/
def SubGraph.setChildren : SubGraph → List SubGraph → SubGraph
  | .mk a p s d m v f c lt g sf l pm _, cs => .mk a p s d m v f c lt g sf l pm cs

/-- Model of `sg.Params.parentIds = ids` (slice-header value semantics: each
subgraph node owns its own slice header). -/
def SubGraph.setParentIds (sg : SubGraph) (ids : List Nat) : SubGraph :=
  sg.setParams { sg.Params with parentIds := ids }

/-- The uid matrix as a plain list (`nil` reads as empty, as Go `len` does). -/
def SubGraph.uidMatrixD (sg : SubGraph) : List (List Nat) :=
  sg.uidMatrix.getD []

/-- Model of `algo.IndexOf` (external): the index of `u` in the uid list, or
`none` for Go's -1.  The Go implementation is a binary search over the sorted
list; on sorted input that is the first index holding `u`. -/
def indexOfUid (l : List Nat) (u : Nat) : Option Nat :=
  l.findIdx? (fun x => x = u)

/-- Model of `(*SubGraph).fieldName`: the alias when set, else the attr. -/
def SubGraph.fieldName (sg : SubGraph) : String :=
  if sg.Params.Alias ≠ "" then sg.Params.Alias else sg.Attr

/-- Model of `addCount` (lines 536-547). -/
def addCount (pc : SubGraph) (count : Nat) (dst : FJ) : FJ :=
  if pc.Params.Normalize ∧ pc.Params.Alias = "" then dst
  else
    dst.AddValue
      (if pc.Params.Alias = "" then "count(" ++ pc.Attr ++ ")" else pc.Params.Alias)
      (.vint count)

/-- Model of `aggWithVarFieldName` (lines 549-561). -/
def aggWithVarFieldName (pc : SubGraph) : String :=
  if pc.Params.Alias ≠ "" then pc.Params.Alias
  else
    match pc.Params.NeedsVar with
    | [] => "val(" ++ pc.Params.Var ++ ")"
    | n :: _ =>
      match pc.SrcFunc with
      | some f => f ++ "(" ++ ("val(" ++ n ++ ")") ++ ")"
      | none => "val(" ++ n ++ ")"

/-- Model of `addInternalNode` (lines 563-571): render the bound-variable
value for this uid as a scalar field; a missing binding adds nothing.  The Go
function can only return nil, but its caller still checks the error; the
`Option String` component keeps that shape. -/
def addInternalNode (pc : SubGraph) (uid : Nat) (dst : FJ) : Option String × FJ :=
  match pc.Params.uidToVal.lookup uid with
  | none => (none, dst)
  | some sv => (none, dst.AddValue (aggWithVarFieldName pc) sv)

/-- Model of `addCheckPwd` (lines 573-586). -/
def addCheckPwd (pc : SubGraph) (vals : List TV) (dst : FJ) : FJ :=
  let c := match vals with
    | [] => false
    | v :: _ => v.asBool
  dst.AddValue
    (if pc.Params.Alias = "" then "checkpwd(" ++ pc.Attr ++ ")" else pc.Params.Alias)
    (.vbool c)

/-- Model of `alreadySeen` (lines 588-595). -/
def alreadySeen (parentIds : List Nat) (uid : Nat) : Bool :=
  parentIds.contains uid

/-- Modelled from the spec: the facet-name delimiter constant is declared
outside `src/`; facet fields are named `<field><delimiter><facetKey>`.  Its
concrete text is immaterial to the claims. -/
def FacetDelimeter : String := "|"

/-- Model of `facetName` (lines 597-602). -/
def facetName (fieldName : String) (f : Facet) : String :=
  if f.falias ≠ "" then f.falias else fieldName ++ FacetDelimeter ++ f.key

/-- Model of the facet-rendering loops of `preTraverse` (lines 696-703 and
741-748): decode each facet (a decode error is fatal) and attach it as a
scalar field. -/
def addFacetVals (fieldName : String) : List Facet → FJ → Option String × FJ
  | [], node => (none, node)
  | f :: rest, node =>
    match f.fval with
    | .error e => (some e, node)
    | .ok v => addFacetVals fieldName rest (node.AddValue (facetName fieldName f) v)

/-- Model of `(*fastJsonNode).addGroupby` (lines 370-387).  The Go receiver
also takes the subgraph, but reads nothing from it. -/
def addGroupby (fj : FJ) (res : GroupResults) (fname : String) : FJ :=
  if res.group.length = 0 then fj
  else
    let g := res.group.foldl
      (fun acc grp =>
        let uc := FJ.New "@groupby"
        let uc := grp.keys.foldl (fun u it => u.AddValue it.attr it.key) uc
        let uc := grp.aggregates.foldl (fun u it => u.AddValue it.attr it.key) uc
        acc.AddListChild "@groupby" uc)
      (FJ.New fname)
    fj.AddListChild fname g

/-- Model of `(*fastJsonNode).addCountAtRoot` (lines 389-399). -/
def addCountAtRoot (fj : FJ) (sg : SubGraph) : FJ :=
  let field := if sg.Params.uidCountAlias = "" then "count" else sg.Params.uidCountAlias
  fj.AddListChild sg.Params.Alias ((FJ.New sg.Params.Alias).AddValue field (.vint sg.DestUIDs.length))

/-- Loop of `addAggregations` over the empty-block children (lines 402-419).
The fallback value for an unset aggregation is `types.Val{FloatID, float64(0)}`,
whose `%f` rendering is `0.000000`. -/
def addAggsLoop (salias : String) : List SubGraph → FJ → Except String FJ
  | [], fj => .ok fj
  | child :: rest, fj =>
    let step := fun (aggVal : Val) =>
      if child.Params.Normalize ∧ child.Params.Alias = "" then addAggsLoop salias rest fj
      else
        let fieldName := aggWithVarFieldName child
        addAggsLoop salias rest (fj.AddListChild salias ((FJ.New fieldName).AddValue fieldName aggVal))
    match child.Params.uidToVal.lookup 0 with
    | none =>
      if child.Params.NeedsVar.length = 0 then
        .error "Only aggregated variables allowed within empty block."
      else step (.vfloat "0.000000")
    | some v => step v

/-- Model of `(*fastJsonNode).addAggregations` (lines 401-424). -/
def addAggregations (fj : FJ) (sg : SubGraph) : Except String FJ :=
  match addAggsLoop sg.Params.Alias sg.Children fj with
  | .error e => .error e
  | .ok fj1 =>
    if fj1.IsEmpty then .ok (fj1.AddListChild sg.Params.Alias (FJ.mk "" 0 false "" [] false))
    else .ok fj1

/-- Model of the value-rendering loop of `preTraverse` (lines 755-787):
convert each task value (a conversion error is fatal), handle the
expand-all-languages alignment (a missing tag is fatal), and append the
scalar, suppressing unaliased fields under `@normalize`. -/
def ptValues (pc : SubGraph) (fieldName : String) (langRow : List String) :
    List TV → Nat → FJ → Option String × FJ
  | [], _, dst => (none, dst)
  | tv :: rest, i, dst =>
    match tv.conv with
    | .error e => (some e, dst)
    | .ok sv =>
      if pc.Params.expandAll ∧ langRow.length ≠ 0 then
        if langRow.length ≤ i then
          (some "pb.error: all lang tags should be either present or absent", dst)
        else
          let lang := langRow.getD i ""
          let fnwt := if lang ≠ "" then fieldName ++ "@" ++ lang else fieldName
          ptValues pc fieldName langRow rest (i + 1)
            (dst.AddListValue fnwt sv (pc.listFlag && decide (lang.length = 0)))
      else
        let encodeAsList := pc.listFlag && decide (pc.Params.Langs.length = 0)
        if ¬pc.Params.Normalize then
          ptValues pc fieldName langRow rest (i + 1) (dst.AddListValue fieldName sv encodeAsList)
        else if pc.Params.Alias ≠ "" then
          ptValues pc fieldName langRow rest (i + 1) (dst.AddListValue fieldName sv encodeAsList)
        else ptValues pc fieldName langRow rest (i + 1) dst

/-- Model of the destination-uid loop of `preTraverse` (lines 674-716):
recursively build one child per destination uid, catching the `"_INV_"`
prune signal per uid, decorating with facets, optionally attaching the
child's uid, and attaching via list or merge-by-name semantics.  The
recursive call is the `rec` parameter; `pc` is threaded because the
recursion mutates its `parentIds`. -/
def ptUids (rec : SubGraph → Nat → FJ → Option String × SubGraph × FJ) (sgGetUid : Bool) :
    SubGraph → String → List (List Facet) → List Nat → Nat → FJ → List Nat →
    Option String × SubGraph × FJ × List Nat
  | pc, _, _, [], _, dst, invalid => (none, pc, dst, invalid)
  | pc, fieldName, fcsList, cu :: rest, childIdx, dst, invalid =>
    if fieldName = "" ∨ invalid.contains cu then
      ptUids rec sgGetUid pc fieldName fcsList rest (childIdx + 1) dst invalid
    else
      match rec pc cu (FJ.New fieldName) with
      | (some e, pc1, _) =>
        if e = "_INV_" then
          ptUids rec sgGetUid pc1 fieldName fcsList rest (childIdx + 1) dst (invalid ++ [cu])
        else (some e, pc1, dst, invalid)
      | (none, pc1, uc) =>
        match (if pc1.Params.Facet ∧ childIdx < fcsList.length then
                addFacetVals fieldName (fcsList.getD childIdx []) uc
               else (none, uc)) with
        | (some e, _) => (some e, pc1, dst, invalid)
        | (none, uc1) =>
          if ¬uc1.IsEmpty then
            let uc2 := if sgGetUid then uc1.SetUID cu "uid" else uc1
            let dst1 := if pc1.listFlag then dst.AddListChild fieldName uc2
                        else dst.AddMapChild fieldName uc2 false
            ptUids rec sgGetUid pc1 fieldName fcsList rest (childIdx + 1) dst1 invalid
          else ptUids rec sgGetUid pc1 fieldName fcsList rest (childIdx + 1) dst invalid

/-- Model of the body of the per-child-predicate loop of `preTraverse`
(lines 617-788) for one child predicate `pc`.  Returns the possibly fatal
error, the mutated `pc`, the mutated destination node, and the accumulated
invalid-uid set. -/
def ptOnePc (rec : SubGraph → Nat → FJ → Option String × SubGraph × FJ)
    (sg pc : SubGraph) (uid : Nat) (dst : FJ) (invalid : List Nat) :
    Option String × SubGraph × FJ × List Nat :=
  if pc.Params.ignoreResult then (none, pc, dst, invalid)
  else if pc.Params.isInternal then
    if pc.Params.Expand ≠ "" then (none, pc, dst, invalid)
    else if pc.Params.Normalize ∧ pc.Params.Alias = "" then (none, pc, dst, invalid)
    else
      match addInternalNode pc uid dst with
      | (some e, dst1) => (some e, pc, dst1, invalid)
      | (none, dst1) => (none, pc, dst1, invalid)
  else if pc.uidMatrixD.length = 0 then (none, pc, dst, invalid)
  else if 0 < pc.facetsMatrix.length ∧ pc.facetsMatrix.length ≠ pc.uidMatrixD.length then
    (some ("Length of facetsMatrix and uidMatrix mismatch: " ++ toString pc.facetsMatrix.length
      ++ " vs " ++ toString pc.uidMatrixD.length), pc, dst, invalid)
  else
    match indexOfUid pc.SrcUIDs uid with
    | none => (none, pc, dst, invalid)
    | some idx =>
      if pc.Params.isGroupBy then
        if pc.GroupbyRes.length ≤ idx then
          (some ("Unexpected length while adding Groupby. Idx: [" ++ toString idx
            ++ "], len: [" ++ toString pc.GroupbyRes.length ++ "]"), pc, dst, invalid)
        else (none, pc, addGroupby dst (pc.GroupbyRes.getD idx default) pc.fieldName, invalid)
      else if 0 < pc.counts.length then
        (none, pc, addCount pc (pc.counts.getD idx 0) dst, invalid)
      else if pc.SrcFunc = some "checkpwd" then
        (none, pc, addCheckPwd pc (pc.valueMatrix.getD idx []) dst, invalid)
      else if idx < pc.uidMatrixD.length ∧ 0 < (pc.uidMatrixD.getD idx []).length then
        let fcsList := if pc.Params.Facet then pc.facetsMatrix.getD idx [] else []
        let pc1 := if sg.Params.IgnoreReflex then pc.setParentIds sg.Params.parentIds else pc
        let ul := pc1.uidMatrixD.getD idx []
        match ptUids rec sg.Params.GetUid pc1 pc.fieldName fcsList ul 0 dst invalid with
        | (some e, pc2, dst2, inv2) => (some e, pc2, dst2, inv2)
        | (none, pc2, dst2, inv2) =>
          if pc2.Params.uidCount ∧ ¬(pc2.Params.uidCountAlias = "" ∧ pc2.Params.Normalize) then
            let calias := if pc2.Params.uidCountAlias = "" then "count"
                          else pc2.Params.uidCountAlias
            (none, pc2,
              dst2.AddListChild pc.fieldName ((FJ.New pc.fieldName).AddValue calias (.vint ul.length)),
              inv2)
          else (none, pc2, dst2, inv2)
      else
        let fieldName1 := if pc.Params.Alias = "" ∧ 0 < pc.Params.Langs.length then
            pc.fieldName ++ "@" ++ String.intercalate ":" pc.Params.Langs
          else pc.fieldName
        if pc.Attr = "uid" then (none, pc, dst.SetUID uid pc.fieldName, invalid)
        else
          match (if idx < pc.facetsMatrix.length ∧ 0 < (pc.facetsMatrix.getD idx []).length then
                  addFacetVals fieldName1 ((pc.facetsMatrix.getD idx []).getD 0 []) dst
                 else (none, dst)) with
          | (some e, dst1) => (some e, pc, dst1, invalid)
          | (none, dst1) =>
            if pc.valueMatrix.length ≤ idx then (none, pc, dst1, invalid)
            else
              match ptValues pc fieldName1 (pc.LangTags.getD idx [])
                  (pc.valueMatrix.getD idx []) 0 dst1 with
              | (some e, dst2) => (some e, pc, dst2, invalid)
              | (none, dst2) => (none, pc, dst2, invalid)

/-- Model of the per-child-predicate loop of `preTraverse` over all child
predicates, threading the destination node, the invalid-uid set, and the
mutated children; a fatal error stops the loop, keeping the remaining
children untouched. -/
def ptChildren (rec : SubGraph → Nat → FJ → Option String × SubGraph × FJ)
    (sg : SubGraph) : List SubGraph → Nat → FJ → List Nat →
    Option String × List SubGraph × FJ × List Nat
  | [], _, dst, invalid => (none, [], dst, invalid)
  | pc :: rest, uid, dst, invalid =>
    match ptOnePc rec sg pc uid dst invalid with
    | (some e, pc1, dst1, inv1) => (some e, pc1 :: rest, dst1, inv1)
    | (none, pc1, dst1, inv1) =>
      match ptChildren rec sg rest uid dst1 inv1 with
      | (e2, rest2, dst2, inv2) => (e2, pc1 :: rest2, dst2, inv2)

/-- Model of `(*SubGraph).preTraverse` (lines 605-811), by recursion on an
explicit fuel bound (the Go recursion descends the finite subgraph tree;
any fuel at least that depth yields the Go behavior, and fuel exhaustion is
a distinguished error).  Returns the error (if any), the mutated subgraph
(its `parentIds` push/pop and its children's mutations), and the populated
destination node. -/
def preTraverse : Nat → SubGraph → Nat → FJ → Option String × SubGraph × FJ
  | 0, sg, _, dst => (some fuelErrMsg, sg, dst)
  | fuel + 1, sg, uid, dst =>
    if sg.Params.IgnoreReflex ∧ alreadySeen sg.Params.parentIds uid then (none, sg, dst)
    else
      let sg1 := if sg.Params.IgnoreReflex then sg.setParentIds (sg.Params.parentIds ++ [uid])
                 else sg
      match ptChildren (fun pc cu uc => preTraverse fuel pc cu uc) sg1 sg1.Children uid dst [] with
      | (some e, cs, dst1, _) => (some e, sg1.setChildren cs, dst1)
      | (none, cs, dst1, _) =>
        let sg2 := sg1.setChildren cs
        let sg3 := if sg2.Params.IgnoreReflex ∧ 0 < sg2.Params.parentIds.length then
            sg2.setParentIds sg2.Params.parentIds.dropLast
          else sg2
        let dst2 := if (sg.Params.GetUid ∧ ¬dst1.IsEmpty) ∨ sg.Params.shortest then
            dst1.SetUID uid "uid"
          else dst1
        let dst3 := match sg.pathMeta with
          | some w => dst2.AddValue "_weight_" (.vfloat w)
          | none => dst2
        (none, sg3, dst3)

/-- Model of the destination-uid loop of `processNodeUids` (lines 451-485):
per uid of the first uid-matrix row, skip filtered uids, traverse, skip
pruned (`"_INV_"`) and empty results, and attach results (normalized or not)
under the root alias, tracking whether any child got attached. -/
def processUids (fuel limit : Nat) : SubGraph → List Nat → FJ → Bool →
    Except String (SubGraph × FJ × Bool)
  | sg, [], fj, hasChild => .ok (sg, fj, hasChild)
  | sg, uid :: rest, fj, hasChild =>
    if (indexOfUid sg.DestUIDs uid).isNone then processUids fuel limit sg rest fj hasChild
    else
      match preTraverse fuel sg uid (FJ.New sg.Params.Alias) with
      | (some e, sg1, _) =>
        if e = "_INV_" then processUids fuel limit sg1 rest fj hasChild
        else .error e
      | (none, sg1, n1) =>
        if n1.IsEmpty then processUids fuel limit sg1 rest fj hasChild
        else if ¬sg1.Params.Normalize then
          processUids fuel limit sg1 rest (fj.AddListChild sg1.Params.Alias n1) true
        else
          match normalizeFJ fuel n1 limit with
          | .error e => .error e
          | .ok rows =>
            processUids fuel limit sg1 rest
              (rows.foldl (fun acc c => acc.AddListChild sg1.Params.Alias (FJ.mk "" 0 false "" c false))
                fj)
              true

/-- Model of `processNodeUids` (lines 426-492): empty-block aggregation,
nil uid matrix, root uid count, group-by, then the per-uid loop, attaching
an empty child under the alias when nothing else got attached. -/
def processNodeUids (fuel limit : Nat) (fj : FJ) (sg : SubGraph) :
    Except String (SubGraph × FJ) :=
  if sg.Params.IsEmpty then
    match addAggregations fj sg with
    | .error e => .error e
    | .ok fj1 => .ok (sg, fj1)
  else if sg.uidMatrix.isNone then
    .ok (sg, fj.AddListChild sg.Params.Alias (FJ.mk "" 0 false "" [] false))
  else
    let hasChild0 : Bool :=
      sg.Params.uidCount && !(decide (sg.Params.uidCountAlias = "") && sg.Params.Normalize)
    let fj0 := if hasChild0 then addCountAtRoot fj sg else fj
    if sg.Params.isGroupBy then
      if sg.GroupbyRes.length = 0 then .error "Expected GroupbyRes to have length > 0."
      else .ok (sg, addGroupby fj0 (sg.GroupbyRes.getD 0 default) sg.Params.Alias)
    else
      match processUids fuel limit sg (sg.uidMatrixD.getD 0 []) fj0 hasChild0 with
      | .error e => .error e
      | .ok (sg1, fj1, hasChild) =>
        if ¬hasChild then
          .ok (sg1, fj1.AddListChild sg.Params.Alias (FJ.mk "" 0 false "" [] false))
        else .ok (sg1, fj1)

/-- Loop of `toFastJSON` over the root's children (lines 508-513). -/
def processRoots (fuel limit : Nat) : List SubGraph → FJ → Except String FJ
  | [], fj => .ok fj
  | sg :: rest, fj =>
    match processNodeUids fuel limit fj sg with
    | .error e => .error e
    | .ok (_, fj1) => processRoots fuel limit rest fj1

/-- Model of `(*SubGraph).toFastJSON` (lines 500-526), minus the latency
bookkeeping (out of scope): build the root node across the children and
serialize it, the empty root serializing to the empty-object text. -/
def toFastJSONStr (fuel limit : Nat) (sg : SubGraph) : Except String String :=
  match processRoots fuel limit sg.Children (FJ.New "_root_") with
  | .error e => .error e
  | .ok n => .ok (toFastJSONBytes n)

/-!  Basic lemmas about the model. -/

@[simp] theorem FJ.attrs_withAttrs (fj : FJ) (bs : List FJ) : (fj.withAttrs bs).attrs = bs := by
  cases fj; rfl

@[simp] theorem SubGraph.Params_setChildren (sg : SubGraph) (cs : List SubGraph) :
    (sg.setChildren cs).Params = sg.Params := by
  cases sg; rfl

@[simp] theorem SubGraph.Params_setParams (sg : SubGraph) (p : OutputNode.Params) :
    (sg.setParams p).Params = p := by
  cases sg; rfl

end OutputNode

namespace OutputNode

/-- C9: merge applied to an empty parent row set returns the child row set
unchanged, with no element-count limit check: the result has the child's row
count (not 0 = 0 x N), and no limit error is raised for any limit, even one
the child set alone exceeds. -/
theorem claim_C9_merge_empty_parent (child : List (List FJ)) (limit : Nat) :
    merge [] child limit = .ok child := rfl

/-- C6: SetUID with the reserved name "uid" is idempotent: when a field named
"uid" is already attached (in particular after a first SetUID) the call is a
no-op, while a first call on a node without a "uid" field appends the uid as
a scalar field. -/
theorem claim_C6_setuid_idempotent (fj : FJ) (u u2 : Nat) :
    (fj.SetUID u "uid").SetUID u2 "uid" = fj.SetUID u "uid" ∧
    ((fj.attrs.any fun a => a.attr = "uid") = false →
      fj.SetUID u "uid" =
        fj.withAttrs (fj.attrs ++ [makeScalarNode "uid" false (uidHexStr u) false])) := by
  by_cases hany : (fj.attrs.any fun a => a.attr = "uid") = true
  · constructor
    · simp [FJ.SetUID, hany]
    · intro hfalse
      rw [hany] at hfalse
      exact absurd hfalse (by simp)
  · have h1 : fj.SetUID u "uid" =
        fj.withAttrs (fj.attrs ++ [makeScalarNode "uid" false (uidHexStr u) false]) := by
      simp [FJ.SetUID, hany]
    refine ⟨?_, fun _ => h1⟩
    rw [h1]
    have h2 : (((fj.withAttrs
        (fj.attrs ++ [makeScalarNode "uid" false (uidHexStr u) false])).attrs.any
          fun a => a.attr = "uid") = true) := by
      simp [makeScalarNode]
    unfold FJ.SetUID
    rw [if_pos ⟨rfl, h2⟩]

/-- Witness for C6 at a concrete node with no "uid" field. -/
theorem claim_C6_setuid_idempotent_witness :
    ((FJ.New "x").SetUID 5 "uid").SetUID 9 "uid" = (FJ.New "x").SetUID 5 "uid" ∧
    (FJ.New "x").SetUID 5 "uid" =
      (FJ.New "x").withAttrs ((FJ.New "x").attrs ++
        [makeScalarNode "uid" false (uidHexStr 5) false]) :=
  ⟨(claim_C6_setuid_idempotent (FJ.New "x") 5 9).1,
   (claim_C6_setuid_idempotent (FJ.New "x") 5 9).2 rfl⟩

/-- C7: when the value codec cannot render a value's type, AddListValue (and
hence AddValue) adds nothing and raises no error: the node is unchanged. -/
theorem claim_C7_unsupported_value_dropped (fj : FJ) (attr : String) (v : Val)
    (lst : Bool) (e : String) (h : valToBytes v = .error e) :
    fj.AddListValue attr v lst = fj ∧ fj.AddValue attr v = fj := by
  constructor <;> simp [FJ.AddValue, FJ.AddListValue, h]

/-- Witness for C7 at a value of an unsupported type id. -/
theorem claim_C7_unsupported_value_dropped_witness :
    valToBytes (.vother 0) = .error "Unsupported types.Val.Tid" ∧
    (FJ.New "n").AddListValue "age" (.vother 0) true = FJ.New "n" ∧
    (FJ.New "n").AddValue "age" (.vother 0) = FJ.New "n" :=
  ⟨rfl,
   (claim_C7_unsupported_value_dropped (FJ.New "n") "age" (.vother 0) true
      "Unsupported types.Val.Tid" rfl).1,
   (claim_C7_unsupported_value_dropped (FJ.New "n") "age" (.vother 0) true
      "Unsupported types.Val.Tid" rfl).2⟩

/-- A node with no children encodes to its raw scalar bytes. -/
theorem encodeNode_fst_leaf (t : FJ) (h : t.attrs = []) : (encodeNode t).1 = t.scalarVal := by
  obtain ⟨a, o, c, sv, attrs, l⟩ := t
  simp only [FJ.attrs_mk] at h
  subst h
  rw [encodeNode_eq]
  rfl

/-- C4: for EVERY node whose four children are named a, a, b, a in that
stored order — the three a-nodes each structural or list-tagged with
arbitrary payloads, b a lone plain scalar, and a and b distinct names —
encode emits the first two a-children as one two-element array under a
single a key, then b as a bare value, then the trailing a-child as its own
one-element array under a second a key: grouping into arrays is by
consecutive name equality only, never across the non-adjacent third
a-sibling. -/
theorem claim_C4_consecutive_grouping (r : String) (o : Nat) (c : Bool) (sv : String)
    (lf : Bool) (na nb : String) (a1 a2 a3 b : FJ)
    (hne : na ≠ nb)
    (ha1 : a1.attr = na) (ha2 : a2.attr = na) (ha3 : a3.attr = na) (hb : b.attr = nb)
    (hf1 : (a1.isChild || a1.listFlag) = true)
    (hf2 : (a2.isChild || a2.listFlag) = true)
    (hf3 : (a3.isChild || a3.listFlag) = true)
    (hbc : b.isChild = false) (hbl : b.listFlag = false) (hba : b.attrs = []) :
    (encodeNode (FJ.mk r o c sv [a1, a2, b, a3] lf)).1 =
      "\x7b" ++ writeKey na ++ "[" ++ (encodeNode a1).1 ++ "," ++ (encodeNode a2).1 ++ "]" ++
        "," ++ writeKey nb ++ b.scalarVal ++ "," ++ writeKey na ++ "[" ++
        (encodeNode a3).1 ++ "]" ++ "\x7d" := by
  have hne2 : ¬(nb = na) := fun h => hne h.symm
  rw [encodeNode_eq]
  dsimp only
  rw [List.map_cons, List.map_cons, List.map_cons, List.map_cons, List.map_nil]
  rw [ha1, ha2, ha3, hb, hbc, hbl]
  rw [encodeNode_fst_leaf b hba]
  simp only [encLoop, hne, hne2, hf1, hf2, hf3]
  simp [String.append_assoc]

/-- Witness for C4 at a concrete tree: the first two a-children structural,
the trailing one a list-tagged scalar, b a plain scalar. -/
theorem claim_C4_consecutive_grouping_witness :
    (encodeNode (FJ.mk "R" 0 false "" [
      FJ.mk "a" 0 true "" [FJ.mk "x" 0 false "1" [] false] false,
      FJ.mk "a" 0 true "" [FJ.mk "x" 0 false "2" [] false] false,
      FJ.mk "b" 0 false "7" [] false,
      FJ.mk "a" 0 false "3" [] true] false)).1 =
    "\x7b\"a\":[\x7b\"x\":1\x7d,\x7b\"x\":2\x7d],\"b\":7,\"a\":[3]\x7d" := by
  have h := claim_C4_consecutive_grouping "R" 0 false "" false "a" "b"
    (FJ.mk "a" 0 true "" [FJ.mk "x" 0 false "1" [] false] false)
    (FJ.mk "a" 0 true "" [FJ.mk "x" 0 false "2" [] false] false)
    (FJ.mk "a" 0 false "3" [] true)
    (FJ.mk "b" 0 false "7" [] false)
    (by decide) rfl rfl rfl rfl rfl rfl rfl rfl rfl rfl
  rw [h]
  simp only [encodeNode_eq, List.map_cons, List.map_nil, writeKey]
  rfl

/-- Counterexample to C5: a node with zero children encodes to its scalar
bytes — the empty string for a bare empty node — not to the empty-object
text; only the top-level serialization step special-cases the empty root. -/
theorem claim_C5_counterexample :
    (FJ.mk "nested" 0 false "" [] false).IsEmpty = true ∧
    (encodeNode (FJ.mk "nested" 0 false "" [] false)).1 = "" ∧
    (encodeNode (FJ.mk "nested" 0 false "" [] false)).1 ≠ "\x7b\x7d" := by
  have h : (encodeNode (FJ.mk "nested" 0 false "" [] false)).1 = "" := by
    rw [encodeNode_eq]
    rfl
  refine ⟨rfl, h, ?_⟩
  rw [h]
  decide

/-- C5 (amended): a node with zero children has IsEmpty true and encodes to
its raw scalar bytes (the empty string for a bare empty node); the top-level
serialization yields the empty-object text for such a root; a nested empty
node attached under a key renders as an empty array under that key. -/
theorem claim_C5_amended (n : FJ) (h : n.attrs = []) :
    n.IsEmpty = true ∧ (encodeNode n).1 = n.scalarVal ∧
    toFastJSONBytes n = "\x7b\x7d" ∧
    (encodeNode (FJ.mk "r" 0 false "" [FJ.mk "a" 0 true "" [] false] false)).1 =
      "\x7b\"a\":[]\x7d" := by
  obtain ⟨a, o, c, sv, attrs, l⟩ := n
  simp only [FJ.attrs_mk] at h
  subst h
  refine ⟨rfl, ?_, ?_, ?_⟩
  · rw [encodeNode_eq]
    rfl
  · rfl
  · simp only [encodeNode_eq, List.map_cons, List.map_nil]
    rfl

/-- Witness for C5 (amended) at a fresh empty node. -/
theorem claim_C5_amended_witness :
    (FJ.New "z").IsEmpty = true ∧ (encodeNode (FJ.New "z")).1 = (FJ.New "z").scalarVal ∧
    toFastJSONBytes (FJ.New "z") = "\x7b\x7d" ∧
    (encodeNode (FJ.mk "r" 0 false "" [FJ.mk "a" 0 true "" [] false] false)).1 =
      "\x7b\"a\":[]\x7d" :=
  claim_C5_amended (FJ.New "z") rfl

/-- Input for the C2 counterexample: a level with IgnoreReflex set whose one
child predicate has a facets/uid matrix length mismatch, a fatal structural
error raised between the parentIds push and the pop. -/
def c2sg : SubGraph :=
  .mk "top" { IgnoreReflex := true } [] [] none [] [] [] [] [] none false none
    [.mk "p" {} [7] [] (some [[5]]) [] [[], []] [] [] [] none false none []]

/-- Counterexample to C2: a fatal error exit of preTraverse does not pop the
pushed uid — after the failed call the parentIds stack holds the visited uid,
so the stack is not restored on every exit path. -/
theorem claim_C2_counterexample :
    (preTraverse 10 c2sg 7 (FJ.New "x")).1 ≠ none ∧
    (preTraverse 10 c2sg 7 (FJ.New "x")).2.1.Params.parentIds ≠ c2sg.Params.parentIds := by
  constructor <;> decide

/-- C2 (amended): when preTraverse returns without a fatal error — including
the cycle-pruned no-op path — the parentIds stack is restored to its value
before the call; fatal error exits taken between the push and the pop leave
the pushed uid on the stack (see the counterexample). -/
theorem claim_C2_amended (fuel : Nat) (sg : SubGraph) (uid : Nat) (dst : FJ)
    (h : (preTraverse fuel sg uid dst).1 = none) :
    (preTraverse fuel sg uid dst).2.1.Params.parentIds = sg.Params.parentIds := by
  cases fuel with
  | zero => simp [preTraverse, fuelErrMsg] at h
  | succ n =>
    by_cases h1 : sg.Params.IgnoreReflex = true ∧ alreadySeen sg.Params.parentIds uid = true
    · simp only [preTraverse, if_pos h1]
    · rcases hpc : ptChildren (fun pc cu uc => preTraverse n pc cu uc)
          (if sg.Params.IgnoreReflex = true then
            sg.setParentIds (sg.Params.parentIds ++ [uid]) else sg)
          (if sg.Params.IgnoreReflex = true then
            sg.setParentIds (sg.Params.parentIds ++ [uid]) else sg).Children
          uid dst [] with ⟨e1, cs, dst1, inv⟩
      simp only [preTraverse, if_neg h1, hpc] at h ⊢
      cases e1 with
      | some e => simp at h
      | none =>
        by_cases h2 : sg.Params.IgnoreReflex = true
        · simp only [h2, if_true, SubGraph.Params_setChildren, SubGraph.setParentIds,
            SubGraph.Params_setParams, List.length_append, List.length_cons, List.length_nil,
            List.dropLast_concat]
          simp
        · simp only [h2, if_false, SubGraph.Params_setChildren]
          simp [h2]

/-- Input for the C2 witness: an IgnoreReflex level whose child predicate
renders a scalar value, so the traversal succeeds. -/
def c2wsg : SubGraph :=
  .mk "top" { IgnoreReflex := true } [] [] none [] [] [] [] [] none false none
    [.mk "name" {} [7] [] (some [[]]) [[⟨.ok (.vstr "A"), false⟩]] [] [] [] [] none false none []]

/-- Witness for C2 (amended) at a successful concrete traversal. -/
theorem claim_C2_amended_witness :
    (preTraverse 5 c2wsg 7 (FJ.New "x")).2.1.Params.parentIds = c2wsg.Params.parentIds :=
  claim_C2_amended 5 c2wsg 7 (FJ.New "x") (by decide)

/-- The element count one parent row contributes when merged against every
child row: the sum of the combined lengths over the child rows. -/
def innerCnt (pa : List FJ) (child : List (List FJ)) : Nat :=
  (child.map (fun ca => pa.length + ca.length)).sum

/-- The total running element count `merge` accumulates over all pairs. -/
def mergeTotal (parent child : List (List FJ)) : Nat :=
  (parent.map (fun pa => innerCnt pa child)).sum

theorem innerCnt_cons (pa ca : List FJ) (rest : List (List FJ)) :
    innerCnt pa (ca :: rest) = pa.length + ca.length + innerCnt pa rest := by
  simp [innerCnt]

theorem mergeInner_spec (limit : Nat) (pa : List FJ) (child : List (List FJ)) (cnt : Nat) :
    (cnt + innerCnt pa child ≤ limit →
      mergeInner limit pa child cnt =
        .ok (cnt + innerCnt pa child, child.map (fun ca => pa ++ ca))) ∧
    (cnt ≤ limit → limit < cnt + innerCnt pa child →
      mergeInner limit pa child cnt = .error mergeErrMsg) := by
  induction child generalizing cnt with
  | nil =>
    refine ⟨fun _ => by simp [mergeInner, innerCnt], fun hc hl => ?_⟩
    simp [innerCnt] at hl
    omega
  | cons ca rest ih =>
    rw [innerCnt_cons]
    constructor
    · intro hle
      have harith : cnt + pa.length + ca.length + innerCnt pa rest =
          cnt + (pa.length + ca.length + innerCnt pa rest) := by omega
      rw [mergeInner, if_neg (by omega), (ih (cnt + pa.length + ca.length)).1 (by omega)]
      dsimp only
      rw [harith, List.map_cons]
    · intro hc hl
      rw [mergeInner]
      by_cases hfirst : limit < cnt + pa.length + ca.length
      · rw [if_pos hfirst]
      · rw [if_neg hfirst, (ih (cnt + pa.length + ca.length)).2 (by omega) (by omega)]

theorem mergeTotal_cons (pa : List FJ) (rest child : List (List FJ)) :
    mergeTotal (pa :: rest) child = innerCnt pa child + mergeTotal rest child := by
  simp [mergeTotal]

theorem mergeOuter_spec (limit : Nat) (child parent : List (List FJ)) (cnt : Nat) :
    (cnt + mergeTotal parent child ≤ limit →
      mergeOuter limit child parent cnt =
        .ok (cnt + mergeTotal parent child,
          parent.flatMap (fun pa => child.map (fun ca => pa ++ ca)))) ∧
    (cnt ≤ limit → limit < cnt + mergeTotal parent child →
      mergeOuter limit child parent cnt = .error mergeErrMsg) := by
  induction parent generalizing cnt with
  | nil =>
    refine ⟨fun _ => by simp [mergeOuter, mergeTotal], fun hc hl => ?_⟩
    simp [mergeTotal] at hl
    omega
  | cons pa rest ih =>
    rw [mergeTotal_cons]
    constructor
    · intro hle
      have harith : cnt + innerCnt pa child + mergeTotal rest child =
          cnt + (innerCnt pa child + mergeTotal rest child) := by omega
      rw [mergeOuter, (mergeInner_spec limit pa child cnt).1 (by omega)]
      dsimp only
      rw [(ih (cnt + innerCnt pa child)).1 (by omega)]
      dsimp only
      rw [harith, List.flatMap_cons]
    · intro hc hl
      rw [mergeOuter]
      by_cases hfirst : limit < cnt + innerCnt pa child
      · rw [(mergeInner_spec limit pa child cnt).2 hc hfirst]
      · rw [(mergeInner_spec limit pa child cnt).1 (by omega)]
        dsimp only
        rw [(ih (cnt + innerCnt pa child)).2 (by omega) (by omega)]

theorem crossRows_length (parent child : List (List FJ)) :
    (parent.flatMap (fun pa => child.map (fun ca => pa ++ ca))).length =
      parent.length * child.length := by
  induction parent with
  | nil => simp
  | cons pa rest ih => simp [ih, Nat.succ_mul, Nat.add_comm]

/-- C3 (amended): for a NONEMPTY parent row set of M rows and a child row set
of N rows, merge returns exactly the M x N pairwise concatenations when the
running cumulative element count stays within the limit, and fails with the
user-facing too-many-results error as soon as the running count exceeds it;
for an empty parent set merge instead returns the child set unchanged (C9). -/
theorem claim_C3_amended (parent child : List (List FJ)) (limit : Nat)
    (hne : parent ≠ []) :
    (mergeTotal parent child ≤ limit →
      merge parent child limit =
        .ok (parent.flatMap (fun pa => child.map (fun ca => pa ++ ca))) ∧
      (parent.flatMap (fun pa => child.map (fun ca => pa ++ ca))).length =
        parent.length * child.length) ∧
    (limit < mergeTotal parent child →
      merge parent child limit = .error mergeErrMsg) := by
  have hlen : ¬parent.length = 0 := by
    simpa using hne
  constructor
  · intro hle
    refine ⟨?_, crossRows_length parent child⟩
    rw [merge, if_neg hlen]
    rw [(mergeOuter_spec limit child parent 0).1 (by omega)]
  · intro hlt
    rw [merge, if_neg hlen]
    rw [(mergeOuter_spec limit child parent 0).2 (Nat.zero_le _) (by omega)]

/-- Counterexample to C3 as stated: with an empty parent set (M = 0) merge
returns the child rows unchanged — one row here — not M x N = 0 rows. -/
theorem claim_C3_counterexample :
    merge [] [[makeScalarNode "a" false "1" false]] 1000 =
      .ok [[makeScalarNode "a" false "1" false]] ∧
    ([[makeScalarNode "a" false "1" false]] : List (List FJ)).length ≠
      ([] : List (List FJ)).length * 1 :=
  ⟨rfl, by decide⟩

/-- Witness for C3 (amended) at a 1-row parent and 2-row child set: the full
cross product under a large limit, and the limit error under limit 0. -/
theorem claim_C3_amended_witness :
    merge [[makeScalarNode "p" false "1" false]]
        [[makeScalarNode "q" false "2" false], [makeScalarNode "q" false "3" false]] 100 =
      .ok ([[makeScalarNode "p" false "1" false]].flatMap
        (fun pa => [[makeScalarNode "q" false "2" false],
          [makeScalarNode "q" false "3" false]].map (fun ca => pa ++ ca))) ∧
    merge [[makeScalarNode "p" false "1" false]]
        [[makeScalarNode "q" false "2" false], [makeScalarNode "q" false "3" false]] 0 =
      .error mergeErrMsg :=
  ⟨((claim_C3_amended _ _ 100 (List.cons_ne_nil _ _)).1 (by decide)).1,
   (claim_C3_amended _ _ 0 (List.cons_ne_nil _ _)).2 (by decide)⟩

/-- Number of fields named "uid" in a row. -/
def countUid (l : List FJ) : Nat :=
  (l.filter (fun a => a.attr = "uid")).length

theorem countUid_append (a b : List FJ) : countUid (a ++ b) = countUid a + countUid b := by
  simp [countUid]

theorem countUid_cons (a : FJ) (l : List FJ) :
    countUid (a :: l) = (if a.attr = "uid" then 1 else 0) + countUid l := by
  by_cases ha : a.attr = "uid"
  · simp [countUid, List.filter_cons, ha]
    omega
  · simp [countUid, List.filter_cons, ha]

theorem firstUidIdx_none (l : List FJ) (h : firstUidIdx l = none) : countUid l = 0 := by
  induction l with
  | nil => rfl
  | cons a rest ih =>
    rw [firstUidIdx] at h
    by_cases ha : a.attr = "uid"
    · rw [if_pos ha] at h
      simp at h
    · rw [if_neg ha] at h
      rw [countUid_cons, if_neg ha]
      cases hr : firstUidIdx rest with
      | none => rw [ih hr]
      | some g => rw [hr] at h; simp at h

theorem lastUidIdx_none (l : List FJ) (h : lastUidIdx l = none) : countUid l = 0 := by
  induction l with
  | nil => rfl
  | cons a rest ih =>
    rw [lastUidIdx] at h
    cases hr : lastUidIdx rest with
    | some i => rw [hr] at h; simp at h
    | none =>
      rw [hr] at h
      by_cases ha : a.attr = "uid"
      · rw [if_pos ha] at h; simp at h
      · rw [countUid_cons, if_neg ha, ih hr]

theorem firstUidIdx_split (l : List FJ) (f : Nat) (h : firstUidIdx l = some f) :
    ∃ pre u suf, l = pre ++ u :: suf ∧ pre.length = f ∧ countUid pre = 0 ∧ u.attr = "uid" := by
  induction l generalizing f with
  | nil => simp [firstUidIdx] at h
  | cons a rest ih =>
    rw [firstUidIdx] at h
    by_cases ha : a.attr = "uid"
    · rw [if_pos ha] at h
      have hf : f = 0 := by simpa using h.symm
      subst hf
      exact ⟨[], a, rest, rfl, rfl, rfl, ha⟩
    · rw [if_neg ha] at h
      cases hr : firstUidIdx rest with
      | none => rw [hr] at h; simp at h
      | some g =>
        rw [hr] at h
        have hf : f = g + 1 := by simpa using h.symm
        subst hf
        obtain ⟨pre, u, suf, hl, hlen, hcnt, hu⟩ := ih g hr
        refine ⟨a :: pre, u, suf, by rw [hl, List.cons_append], by simp [hlen], ?_, hu⟩
        rw [countUid_cons, if_neg ha, hcnt]

theorem lastUidIdx_split (l : List FJ) (j : Nat) (h : lastUidIdx l = some j) :
    ∃ pre u suf, l = pre ++ u :: suf ∧ pre.length = j ∧ u.attr = "uid" ∧ countUid suf = 0 := by
  induction l generalizing j with
  | nil => simp [lastUidIdx] at h
  | cons a rest ih =>
    rw [lastUidIdx] at h
    cases hr : lastUidIdx rest with
    | some i =>
      rw [hr] at h
      have hj : j = i + 1 := by simpa using h.symm
      subst hj
      obtain ⟨pre, u, suf, hl, hlen, hu, hcnt⟩ := ih i hr
      exact ⟨a :: pre, u, suf, by rw [hl, List.cons_append], by simp [hlen], hu, hcnt⟩
    | none =>
      rw [hr] at h
      by_cases ha : a.attr = "uid"
      · rw [if_pos ha] at h
        have hj : j = 0 := by simpa using h.symm
        subst hj
        exact ⟨[], a, rest, rfl, rfl, ha, lastUidIdx_none rest hr⟩
      · rw [if_neg ha] at h
        simp at h

/-- The duplicate-uid drop leaves at most one "uid" field in any row. -/
theorem countUid_removeExtraUids (l : List FJ) : countUid (removeExtraUids l) ≤ 1 := by
  rw [removeExtraUids]
  cases hf : firstUidIdx l with
  | none =>
    cases hl2 : lastUidIdx l with
    | none =>
      dsimp only
      have h0 := firstUidIdx_none l hf
      omega
    | some j =>
      dsimp only
      have h0 := firstUidIdx_none l hf
      omega
  | some f =>
    cases hl2 : lastUidIdx l with
    | none =>
      dsimp only
      have h0 := lastUidIdx_none l hl2
      omega
    | some lst =>
      dsimp only
      obtain ⟨pre, u, suf, hl1, hlen1, hcnt1, hu1⟩ := firstUidIdx_split l f hf
      obtain ⟨pre2, u2, suf2, hl2e, hlen2, hu2, hcnt2⟩ := lastUidIdx_split l lst hl2
      have htake : l.take f = pre := by
        rw [hl1]; exact List.take_left' hlen1
      have hdrop : l.drop lst = u2 :: suf2 := by
        rw [hl2e]; exact List.drop_left' hlen2
      have hcd : countUid (l.drop lst) = 1 := by
        rw [hdrop, countUid_cons, if_pos hu2, hcnt2]
      by_cases hne : f = lst
      · rw [if_neg (show ¬f ≠ lst by simp [hne])]
        have hpre := List.append_inj (hl1.symm.trans hl2e) (by omega)
        have hsuf : suf = suf2 := by
          have h2 := hpre.2
          simp only [List.cons.injEq] at h2
          exact h2.2
        rw [hl1, countUid_append, countUid_cons, if_pos hu1, hcnt1, hsuf, hcnt2]
      · rw [if_pos hne]
        by_cases hf0 : f = 0
        · rw [if_pos hf0]
          omega
        · rw [if_neg hf0, countUid_append, htake, hcnt1, hcd]

/-- C1 (amended): for every node WITH at least one structural child on which
normalize succeeds, each returned row contains at most one field named "uid"
(the rows of such a node all pass through the sort-and-collapse step); when
the sorted row contains several uid fields, the LATEST-positioned one is the
survivor — given uid fields at positions 2, 5 and 7 of an eight-field row,
only position 7 survives (the scan keeps `slice[:first] ++ slice[last:]`),
all earlier uid fields being dropped.  A node with no structural children
returns its attribute row unchanged, without this collapse. -/
theorem claim_C1_amended :
    (∀ (fuel : Nat) (fj : FJ) (limit : Nat) (rows : List (List FJ)),
        (fj.attrs.filter fun a => a.isChild).length ≠ 0 →
        normalizeFJ fuel fj limit = .ok rows →
        ∀ row ∈ rows, countUid row ≤ 1) ∧
    removeExtraUids [FJ.New "a", FJ.New "b", makeScalarNode "uid" false "\"0x2\"" false,
        FJ.New "c", FJ.New "d", makeScalarNode "uid" false "\"0x5\"" false,
        FJ.New "e", makeScalarNode "uid" false "\"0x7\"" false] =
      [FJ.New "a", FJ.New "b", makeScalarNode "uid" false "\"0x7\"" false] := by
  constructor
  · intro fuel fj limit rows hchild hok row hrow
    cases fuel with
    | zero => simp [normalizeFJ] at hok
    | succ n =>
      rw [normalizeFJ, if_neg hchild] at hok
      cases hscan : normScan (fun a => normalizeFJ n a limit) limit fj.attrs
          [fj.attrs.filter (fun a => ¬a.isChild)] none with
      | error e => rw [hscan] at hok; simp at hok
      | ok ps =>
        rw [hscan] at hok
        simp only [Except.ok.injEq] at hok
        subst hok
        obtain ⟨r, _, rfl⟩ := List.mem_map.mp hrow
        exact countUid_removeExtraUids (sortNodes r)
  · rfl

/-- Counterexample to C1 as stated, in two parts.  First, a node holding a
uid scalar (value 0xa, the earliest-positioned uid) and a child group
contributing a second uid (value 0xb) normalizes to a row keeping only the
LATER uid 0xb — not the earliest-positioned one the claim promises.  Second,
a node with NO structural children and two uid scalars normalizes
successfully to a row keeping both, so without structural children not even
the at-most-one-uid part holds. -/
theorem claim_C1_counterexample :
    normalizeFJ 10 (FJ.mk "R" 0 false "" [
        makeScalarNode "uid" false "\"0xa\"" false,
        FJ.mk "friend" 0 true "" [makeScalarNode "uid" false "\"0xb\"" false] false] false)
      1000 =
      .ok [[makeScalarNode "uid" false "\"0xb\"" false]] ∧
    ("\"0xb\"" : String) ≠ "\"0xa\"" ∧
    normalizeFJ 10 (FJ.mk "R" 0 false "" [
        makeScalarNode "uid" false "\"0xa\"" false,
        makeScalarNode "uid" false "\"0xb\"" false] false) 1000 =
      .ok [[makeScalarNode "uid" false "\"0xa\"" false,
        makeScalarNode "uid" false "\"0xb\"" false]] ∧
    countUid [makeScalarNode "uid" false "\"0xa\"" false,
        makeScalarNode "uid" false "\"0xb\"" false] = 2 :=
  ⟨rfl, by decide, rfl, rfl⟩

/-- Witness for C1 (amended) at the concrete normalize run of the
counterexample input. -/
theorem claim_C1_amended_witness :
    countUid [makeScalarNode "uid" false "\"0xb\"" false] ≤ 1 :=
  claim_C1_amended.1 10
    (FJ.mk "R" 0 false "" [
        makeScalarNode "uid" false "\"0xa\"" false,
        FJ.mk "friend" 0 true "" [makeScalarNode "uid" false "\"0xb\"" false] false] false)
    1000 [[makeScalarNode "uid" false "\"0xb\"" false]] (by decide) rfl
    [makeScalarNode "uid" false "\"0xb\"" false] (by simp)

/-- Structural induction over the node tree with the pointwise hypothesis on
children. -/
theorem FJ.indAttrs {P : FJ → Prop}
    (h : ∀ a o c sv attrs l, (∀ x ∈ attrs, P x) → P (.mk a o c sv attrs l)) :
    ∀ t, P t
  | .mk a o c sv attrs l => h a o c sv attrs l (fun x hx => FJ.indAttrs h x)
termination_by t => sizeOf t
decreasing_by
  simp only [FJ.mk.sizeOf_spec]
  have := List.sizeOf_lt_of_mem hx
  omega

/-- Erase every `order` field of a tree.  The encoder's output never reads an
`order` field, so trees equal up to `eraseOrder` encode to the same bytes. -/
def eraseOrder : FJ → FJ
  | .mk a _ c sv attrs l => .mk a 0 c sv (attrs.attach.map fun x => eraseOrder x.1) l
termination_by t => sizeOf t
decreasing_by
  simp only [FJ.mk.sizeOf_spec]
  have := List.sizeOf_lt_of_mem x.2
  omega

theorem eraseOrder_mk (a : String) (o : Nat) (c : Bool) (sv : String)
    (attrs : List FJ) (l : Bool) :
    eraseOrder (.mk a o c sv attrs l) = .mk a 0 c sv (attrs.map eraseOrder) l := by
  rw [eraseOrder, List.attach_map_val attrs eraseOrder]

theorem eraseOrder_attr (t : FJ) : (eraseOrder t).attr = t.attr := by
  cases t; rw [eraseOrder_mk]; rfl

theorem eraseOrder_isChild (t : FJ) : (eraseOrder t).isChild = t.isChild := by
  cases t; rw [eraseOrder_mk]; rfl

theorem eraseOrder_listFlag (t : FJ) : (eraseOrder t).listFlag = t.listFlag := by
  cases t; rw [eraseOrder_mk]; rfl

theorem eraseOrder_withOrder (t : FJ) (n : Nat) :
    eraseOrder (t.withOrder n) = eraseOrder t := by
  cases t
  rw [FJ.withOrder_mk, eraseOrder_mk, eraseOrder_mk]

theorem map_eraseOrder_assignOrders : ∀ (n : Nat) (l : List FJ),
    (assignOrders n l).map eraseOrder = l.map eraseOrder
  | _, [] => rfl
  | n, a :: rest => by
    rw [assignOrders, List.map_cons, List.map_cons, eraseOrder_withOrder,
      map_eraseOrder_assignOrders (n + 1) rest]

/-- The emitted bytes do not depend on any `order` field. -/
theorem encodeNode_fst_eraseOrder : ∀ t, (encodeNode (eraseOrder t)).1 = (encodeNode t).1 := by
  refine FJ.indAttrs ?_
  intro a o c sv attrs l ih
  rw [eraseOrder_mk, encodeNode_eq, encodeNode_eq]
  dsimp only
  rw [List.map_map]
  have hmap : attrs.map
      ((fun x => EncItem.mk x.attr x.isChild x.listFlag (encodeNode x).1) ∘ eraseOrder) =
      attrs.map (fun x => EncItem.mk x.attr x.isChild x.listFlag (encodeNode x).1) :=
    List.map_congr_left (fun x hx => by
      simp [Function.comp, eraseOrder_attr, eraseOrder_isChild, eraseOrder_listFlag, ih x hx])
  rw [hmap]

/-- The tree returned by encode differs from its input only in `order` fields. -/
theorem eraseOrder_encodeNode_snd : ∀ t, eraseOrder (encodeNode t).2 = eraseOrder t := by
  refine FJ.indAttrs ?_
  intro a o c sv attrs l ih
  rw [encodeNode_eq]
  dsimp only
  rw [eraseOrder_mk, eraseOrder_mk]
  rw [map_eraseOrder_assignOrders, List.map_map]
  have hmap : attrs.map (eraseOrder ∘ fun x => (encodeNode x).2) = attrs.map eraseOrder :=
    List.map_congr_left (fun x hx => ih x hx)
  rw [hmap]

/-- C8: encoding the same fully-built tree a second time — that is, encoding
the tree state left behind by the first encode with its order fields
reassigned — produces byte-identical output. -/
theorem claim_C8_encode_idempotent (t : FJ) :
    (encodeNode (encodeNode t).2).1 = (encodeNode t).1 :=
  calc (encodeNode (encodeNode t).2).1
      = (encodeNode (eraseOrder (encodeNode t).2)).1 := (encodeNode_fst_eraseOrder _).symm
    _ = (encodeNode (eraseOrder t)).1 := by rw [eraseOrder_encodeNode_snd]
    _ = (encodeNode t).1 := encodeNode_fst_eraseOrder t

/-- When the per-uid loop of `processNodeUids` completes with the has-child
flag still false, it attached nothing: the root node comes back unchanged
(and the flag must already have been false going in). -/
theorem processUids_no_child (fuel limit : Nat) :
    ∀ (uids : List Nat) (sg : SubGraph) (fj : FJ) (b : Bool) (sg1 : SubGraph) (fj1 : FJ),
    processUids fuel limit sg uids fj b = .ok (sg1, fj1, false) → fj1 = fj ∧ b = false := by
  intro uids
  induction uids with
  | nil =>
    intro sg fj b sg1 fj1 h
    rw [processUids] at h
    simp only [Except.ok.injEq, Prod.mk.injEq] at h
    exact ⟨h.2.1.symm, h.2.2⟩
  | cons uid rest ih =>
    intro sg fj b sg1 fj1 h
    rw [processUids] at h
    by_cases h1 : (indexOfUid sg.DestUIDs uid).isNone = true
    · rw [if_pos h1] at h
      exact ih _ _ _ _ _ h
    · rw [if_neg h1] at h
      rcases hpt : preTraverse fuel sg uid (FJ.New sg.Params.Alias) with ⟨e, sgx, n1⟩
      rw [hpt] at h
      cases e with
      | some err =>
        dsimp only at h
        by_cases h2 : err = "_INV_"
        · rw [if_pos h2] at h
          exact ih _ _ _ _ _ h
        · rw [if_neg h2] at h
          simp at h
      | none =>
        dsimp only at h
        by_cases h3 : n1.IsEmpty = true
        · rw [if_pos h3] at h
          exact ih _ _ _ _ _ h
        · rw [if_neg h3] at h
          by_cases h4 : ¬sgx.Params.Normalize = true
          · rw [if_pos h4] at h
            have hrec := ih _ _ _ _ _ h
            exact absurd hrec.2 (by simp)
          · rw [if_neg h4] at h
            rcases hn : normalizeFJ fuel n1 limit with e2 | rows
            · rw [hn] at h
              simp at h
            · rw [hn] at h
              have hrec := ih _ _ _ _ _ h
              exact absurd hrec.2 (by simp)

/-- The encode loop starting a fresh run always begins by writing a key, so
its bytes start with a double quote. -/
theorem encLoop_data (cur : EncItem) (rest : List EncItem) (ia : Bool) :
    ∃ s, (encLoop cur rest 1 ia).data = '\"' :: s := by
  have hq : ("\"" : String).data = ['\"'] := rfl
  cases rest with
  | nil =>
    rw [encLoop]
    simp [writeKey, String.data_append, hq]
  | cons nxt rest2 =>
    rw [encLoop]
    by_cases hattr : cur.attr = nxt.attr
    · rw [if_pos hattr]
      simp [writeKey, String.data_append, hq]
    · rw [if_neg hattr]
      simp [writeKey, String.data_append, hq]

/-- The top-level serialization emits the bare empty-object text exactly when
the root has no attached fields. -/
theorem toFastJSONBytes_braces_iff (root : FJ) :
    toFastJSONBytes root = "\x7b\x7d" ↔ root.attrs = [] := by
  constructor
  · intro h
    by_contra hne
    rw [toFastJSONBytes, if_neg (by simpa using hne)] at h
    obtain ⟨a0, o, c, sv, attrs, l⟩ := root
    simp only [FJ.attrs_mk] at hne
    cases attrs with
    | nil => exact hne rfl
    | cons x xs =>
      rw [encodeNode_eq] at h
      dsimp only at h
      rw [List.map_cons] at h
      obtain ⟨s, hs⟩ := encLoop_data
        (EncItem.mk x.attr x.isChild x.listFlag (encodeNode x).1)
        (xs.map fun y => EncItem.mk y.attr y.isChild y.listFlag (encodeNode y).1) false
      have hd := congrArg String.data h
      have hb : ("\x7b" : String).data = ['\x7b'] := rfl
      have hc : ("\x7d" : String).data = ['\x7d'] := rfl
      have hbc : ("\x7b\x7d" : String).data = ['\x7b', '\x7d'] := rfl
      rw [String.data_append, String.data_append, hs, hb, hc, hbc] at hd
      simp at hd
  · intro h
    rw [toFastJSONBytes, if_pos (by simp [h])]

/-- Input for the C10 counterexample: a root subgraph requesting a uid count
(aliased "n") whose destination loop attaches nothing. -/
def c10sg : SubGraph :=
  .mk "q" { Alias := "people", uidCount := true, uidCountAlias := "n" } [] [] (some [[]])
    [] [] [] [] [] none false none []

/-- Counterexample to C10 as stated: with a uid count requested, the count
child already sets the has-child flag, so no empty child is attached even
though no destination uid yields a non-empty subtree — the alias serializes
to the count row, not to an empty array. -/
theorem claim_C10_counterexample :
    processNodeUids 5 100 (FJ.New "_root_") c10sg =
      .ok (c10sg, FJ.mk "_root_" 0 false ""
        [FJ.mk "people" 0 true "" [FJ.mk "n" 0 false "0" [] false] false] false) ∧
    toFastJSONBytes (FJ.mk "_root_" 0 false ""
        [FJ.mk "people" 0 true "" [FJ.mk "n" 0 false "0" [] false] false] false) =
      "\x7b\"people\":[\x7b\"n\":0\x7d]\x7d" ∧
    ("\x7b\"people\":[\x7b\"n\":0\x7d]\x7d" : String) ≠ "\x7b\"people\":[]\x7d" := by
  refine ⟨rfl, ?_, by decide⟩
  rw [toFastJSONBytes, if_neg (by decide)]
  simp only [encodeNode_eq, List.map_cons, List.map_nil]
  rfl

/-- C10 (amended): for a root subgraph that is neither an empty-block
aggregation nor a group-by query, an empty child node is attached under the
root's alias when the uid matrix is nil, and also when the per-uid loop
attaches nothing — PROVIDED no uid count contributed a child first; the
serialized output then maps the alias to an empty array, and the bare
empty-object output arises exactly when no fields at all were attached to
the root node. -/
theorem claim_C10_amended :
    (∀ (fuel limit : Nat) (fj : FJ) (sg : SubGraph),
        sg.Params.IsEmpty = false → sg.uidMatrix = none →
        processNodeUids fuel limit fj sg =
          .ok (sg, fj.AddListChild sg.Params.Alias (FJ.mk "" 0 false "" [] false))) ∧
    (∀ (fuel limit : Nat) (fj : FJ) (sg sg1 : SubGraph) (fj1 : FJ),
        sg.Params.IsEmpty = false → sg.uidMatrix.isNone = false →
        (sg.Params.uidCount &&
          !(decide (sg.Params.uidCountAlias = "") && sg.Params.Normalize)) = false →
        sg.Params.isGroupBy = false →
        processUids fuel limit sg (sg.uidMatrixD.getD 0 []) fj false = .ok (sg1, fj1, false) →
        processNodeUids fuel limit fj sg =
          .ok (sg1, fj.AddListChild sg.Params.Alias (FJ.mk "" 0 false "" [] false))) ∧
    (∀ root : FJ, toFastJSONBytes root = "\x7b\x7d" ↔ root.attrs = []) ∧
    toFastJSONBytes (FJ.mk "_root_" 0 false "" [FJ.mk "people" 0 true "" [] false] false) =
      "\x7b\"people\":[]\x7d" := by
  refine ⟨?_, ?_, toFastJSONBytes_braces_iff, ?_⟩
  · intro fuel limit fj sg h1 h2
    rw [processNodeUids, if_neg (by simp [h1]), if_pos (by simp [h2])]
  · intro fuel limit fj sg sg1 fj1 h1 h2 hcond h4 hloop
    obtain ⟨hfj, _⟩ := processUids_no_child fuel limit _ sg fj false sg1 fj1 hloop
    subst hfj
    simp only [processNodeUids, h1, h2, hcond, h4, Bool.false_eq_true, if_false, hloop]
    rfl
  · rw [toFastJSONBytes, if_neg (by decide)]
    simp only [encodeNode_eq, List.map_cons, List.map_nil]
    rfl

/-- Input for the C10 witness: a plain aliased root subgraph with a nil uid
matrix. -/
def c10wsg : SubGraph :=
  .mk "q" { Alias := "stuff" } [] [] none [] [] [] [] [] none false none []

/-- Witness for C10 (amended) at a nil uid matrix. -/
theorem claim_C10_amended_witness :
    processNodeUids 5 100 (FJ.New "_root_") c10wsg =
      .ok (c10wsg, (FJ.New "_root_").AddListChild "stuff" (FJ.mk "" 0 false "" [] false)) :=
  claim_C10_amended.1 5 100 (FJ.New "_root_") c10wsg rfl rfl
